import Mathlib

/-!
Verification of the relay ingestion core (market/util/marketutil.go and the
extractor handlers) against its natural-language specification.

Modelling conventions:
* Go strings are modelled as lists of Unicode code points (`Str := List Nat`);
  ASCII codes are written numerically (45 = hyphen, 48 = digit 0, ...).
* Go maps are modelled as association lists with overwriting insert; iteration
  follows insertion order (Go randomizes iteration order, but every claim
  settled here is insensitive to that order).
* `float64` arithmetic is modelled as exact rational arithmetic (`Rat`).  The
  only float facts the claims rely on are that `float64 x = 0` iff the integer
  `x` is `0` and that dividing by `1e18` preserves zero- and disequality,
  which hold for the actual `float64` operations on the values involved.
* The external collaborators (dao token/market source, order store) are inputs
  of the modelled functions, following section 6 of the spec.
-/

namespace Relay

/-- Go strings as lists of Unicode code points. -/
abbrev Str := List Nat

/-- Code point of the hyphen character used as the market id separator. -/
def hyphen : Nat := 45

/-- Modelled from `strings.ToLower` for the ASCII range: uppercase letters
A..Z (65..90) are shifted to a..z, everything else is unchanged. -/
def charLower (c : Nat) : Nat := if 65 ≤ c ∧ c ≤ 90 then c + 32 else c

/-- `strings.ToLower` on a whole string. -/
def toLower (s : Str) : Str := s.map charLower

/-- Unicode white space test used by `strings.TrimSpace`
(tab, lf, vt, ff, cr, space, NEL, NBSP). -/
def isSpace (c : Nat) : Bool :=
  c == 9 || c == 10 || c == 11 || c == 12 || c == 13 || c == 32 || c == 133 || c == 160

/-- `strings.TrimSpace`: drop white space from both ends. -/
def trimSpace (s : Str) : Str :=
  ((s.dropWhile isSpace).reverse.dropWhile isSpace).reverse

/-- `strings.Split(s, sep)` for a one-character separator: the slices between
occurrences of the separator (n+1 slices for n occurrences). -/
def splitOnChar (c : Nat) : Str → List Str
  | [] => [[]]
  | x :: xs =>
    let r := splitOnChar c xs
    if x = c then [] :: r
    else
      match r with
      | [] => [[x]]
      | h :: t => (x :: h) :: t

/-- Number of occurrences of a code point in a string. -/
def countChar (c : Nat) : Str → Nat
  | [] => 0
  | x :: xs => (if x = c then 1 else 0) + countChar c xs

/-- Association-list insert modelling Go's `m[k] = v` (overwrite or append). -/
def insertA {α : Type} (k : Str) (v : α) : List (Str × α) → List (Str × α)
  | [] => [(k, v)]
  | (k2, v2) :: rest => if k2 = k then (k, v) :: rest else (k2, v2) :: insertA k v rest

/-- Association-list lookup modelling Go's `v, ok := m[k]`. -/
def lookupA {α : Type} (k : Str) : List (Str × α) → Option α
  | [] => none
  | (k2, v) :: rest => if k2 = k then some v else lookupA k rest

/-- The values of a Go map, in (modelled) iteration order. -/
def valuesA {α : Type} (l : List (Str × α)) : List α := l.map Prod.snd

/-- types.Token: the fields the registry uses.  The contract address
(`Protocol`) is kept in its hex-string form. -/
structure Token where
  Symbol : Str
  Protocol : Str
deriving DecidableEq, Repr

/-- marketutil.go: `type TokenPair struct { TokenS, TokenB common.Address }`. -/
structure TokenPair where
  TokenS : Str
  TokenB : Str
deriving DecidableEq, Repr

/-- The package-level mutable registry state of market/util:
`SupportTokens`, `SupportMarkets`, `AllTokens`, `AllMarkets`, `AllTokenPairs`. -/
structure MarketState where
  SupportTokens : List (Str × Token)
  SupportMarkets : List (Str × Token)
  AllTokens : List (Str × Token)
  AllMarkets : List Str
  AllTokenPairs : List TokenPair
deriving DecidableEq, Repr

/-- The empty registry state (fresh process, before `Initialize`). -/
def emptyMarketState : MarketState := ⟨[], [], [], [], []⟩

/-- Build a symbol-keyed map from a token list
(`for _, v := range tokens { m[v.Symbol] = token }`). -/
def buildTokenMap (ts : List Token) : List (Str × Token) :=
  ts.foldl (fun m v => insertA v.Symbol v m) []

/-- The pairs map built inside `Initialize`: for every market `v` and token
`vv`, insert `v-vv ↦ (v.Protocol, vv.Protocol)` then `vv-v ↦ (vv.Protocol,
v.Protocol)`. -/
def pairsMapBuild (sm stk : List Token) : List (Str × TokenPair) :=
  sm.foldl (fun pm v =>
    stk.foldl (fun pm2 vv =>
      insertA (vv.Symbol ++ hyphen :: v.Symbol) ⟨vv.Protocol, v.Protocol⟩
        (insertA (v.Symbol ++ hyphen :: vv.Symbol) ⟨v.Protocol, vv.Protocol⟩ pm2)) pm) []

/-- marketutil.go `Initialize(rds dao.RdsService)`.

The two dao calls `FindUnDeniedTokens` / `FindUnDeniedMarkets` are external
collaborators (dao is not under src); modelled from the spec, section 6, as
inputs delivering either a record list or an error.  `dao.Token.ConvertUp`
(also not under src) is modelled as the identity on the two fields used.
`log.Fatalf` aborts the process and is modelled as `Except.error`.

Faithful to the source: the three maps `SupportTokens`, `SupportMarkets`,
`AllTokens` are re-made from scratch, while `AllMarkets` and `AllTokenPairs`
are only appended to (the source never resets those two slices). -/
def Initialize (st : MarketState) (tokensRes marketsRes : Except Unit (List Token)) :
    Except Unit MarketState :=
  match tokensRes with
  | Except.error e => Except.error e
  | Except.ok tokens =>
    match marketsRes with
    | Except.error e => Except.error e
    | Except.ok markets =>
      let supportTokens := buildTokenMap tokens
      let allTokens := supportTokens.foldl (fun m kv => insertA kv.1 kv.2 m) []
      let supportMarkets := buildTokenMap markets
      let allMarkets := st.AllMarkets ++
        (valuesA supportTokens).flatMap (fun k =>
          (valuesA supportMarkets).map (fun kk => k.Symbol ++ hyphen :: kk.Symbol))
      let pairs := pairsMapBuild (valuesA supportMarkets) (valuesA supportTokens)
      let allTokenPairs := st.AllTokenPairs ++ pairs.map Prod.snd
      Except.ok ⟨supportTokens, supportMarkets, allTokens, allMarkets, allTokenPairs⟩

/-- marketutil.go `IsSupportedMarket`. -/
def IsSupportedMarket (st : MarketState) (market : Str) : Bool :=
  (lookupA market st.SupportMarkets).isSome

/-- marketutil.go `IsSupportedToken`. -/
def IsSupportedToken (st : MarketState) (token : Str) : Bool :=
  (lookupA token st.SupportTokens).isSome

/-- marketutil.go `WrapMarket(s, b)`: lower-case both arguments; if `s` is a
registered market and `b` a supported token the result is `b-s`, else if `b`
is a registered market and `s` a supported token the result is `s-b`, else an
error.  The error payload models the variable part `s-b` of the Go message
"not supported market type : s-b". -/
def WrapMarket (st : MarketState) (s b : Str) : Except Str Str :=
  let s2 := toLower s
  let b2 := toLower b
  if IsSupportedMarket st s2 && IsSupportedToken st b2 then
    Except.ok (b2 ++ hyphen :: s2)
  else if IsSupportedMarket st b2 && IsSupportedToken st s2 then
    Except.ok (s2 ++ hyphen :: b2)
  else
    Except.error (s2 ++ hyphen :: b2)

/-- marketutil.go `AliasToAddress`: `AllTokens[t].Protocol`; a missing key
yields the zero-value Token, hence the empty string. -/
def AliasToAddress (st : MarketState) (t : Str) : Str :=
  match lookupA t st.AllTokens with
  | some tok => tok.Protocol
  | none => []

/-- marketutil.go `AddressToAlias`: linear scan of `AllTokens` for a token
whose address equals the argument; empty string on miss. -/
def AddressToAlias (st : MarketState) (t : Str) : Str :=
  match st.AllTokens.find? (fun kv => kv.2.Protocol = t) with
  | some kv => kv.1
  | none => []

/-- marketutil.go `WrapMarketByAddress`: resolve both addresses to symbols,
then `WrapMarket`. -/
def WrapMarketByAddress (st : MarketState) (s b : Str) : Except Str Str :=
  WrapMarket st (AddressToAlias st s) (AddressToAlias st b)

/-- marketutil.go `UnWrap`: trim, split on hyphen; exactly two slices yield
the lower-cased pair, anything else yields two empty strings. -/
def UnWrap (market : Str) : Str × Str :=
  match splitOnChar hyphen (trimSpace market) with
  | [a, b] => (toLower a, toLower b)
  | _ => ([], [])

/-- marketutil.go `IsAddress`: `strings.HasPrefix(token, "0x")`
(48 = 0, 120 = x). -/
def IsAddress (token : Str) : Bool := token.take 2 = [48, 120]

/-- marketutil.go `IsBuy`: resolve an address argument to its alias, then
test membership in `SupportTokens`. -/
def IsBuy (st : MarketState) (s : Str) : Bool :=
  let s2 := if IsAddress s then AddressToAlias st s else s
  (lookupA s2 st.SupportTokens).isSome

/-- `big.Int.UnmarshalText` = `SetString(text, 10)`: an optional sign
(43 = plus, 45 = minus) followed by at least one decimal digit.  `none`
models a parse failure. -/
def parseDecInt (s : Str) : Option Int :=
  let digits : Str → Option Nat := fun d =>
    if d = [] then none
    else if d.all (fun c => 48 ≤ c && c ≤ 57) then
      some (d.foldl (fun a c => a * 10 + (c - 48)) 0)
    else none
  match s with
  | 43 :: rest => (digits rest).map (fun n => (n : Int))
  | 45 :: rest => (digits rest).map (fun n => -(n : Int))
  | _ => (digits s).map (fun n => (n : Int))

/-- ByteToFloat's `rst.UnmarshalText(amount)`: on failure `rst` keeps its
zero value. -/
def decodeAmount (s : Str) : Int := (parseDecInt s).getD 0

/-- Go `big.Int.Int64`: `v := int64(low64(x.abs)); if x.neg { v = -v }` —
the low 64 bits of the absolute value reinterpreted as a signed 64-bit word,
negated (with int64 wrap-around at the minimum) for negative inputs. -/
def bigIntInt64 (x : Int) : Int :=
  let u : Nat := x.natAbs % 2 ^ 64
  let v : Int := if u < 2 ^ 63 then (u : Int) else (u : Int) - 2 ^ 64
  if x < 0 then (if v = -(2 ^ 63) then v else -v) else v

/-- marketutil.go `weiToEther = 1e18`, as an exact rational. -/
def weiToEther : ℚ := 10 ^ 18

/-- marketutil.go `ByteToFloat`: decode the text form into a big integer
(zero on failure), truncate to int64, divide by 1e18.  `float64` arithmetic
is modelled as exact rational arithmetic. -/
def ByteToFloat (amount : Str) : ℚ :=
  ((bigIntInt64 (decodeAmount amount) : ℚ)) / weiToEther

/-- marketutil.go `CalculatePrice`. -/
def CalculatePrice (st : MarketState) (amountS amountB : Str) (s b : Str) : ℚ :=
  let as2 := ByteToFloat amountS
  let ab := ByteToFloat amountB
  if as2 = 0 ∨ ab = 0 then 0
  else if IsBuy st s then ab / as2
  else as2 / ab

/-! ## Fork-Ordering Unit

`ordermanager.InnerForkEvent` / `InnerForkEventList` live in the ordermanager
package, which is not under src (only its test `TestInnerForkEventList_Sort`
is).  Modelled from the spec: a Fork Event Key is a (block number, log index)
pair, ordered by block number ascending with log index ascending as the
tie-break, and the list type supports in-place sort under that order. -/

/-- Modelled from the spec: the Fork Event Key (block number, log index);
the `ordermanager.InnerForkEvent` declaration itself is not under src. -/
structure InnerForkEvent where
  BlockNumber : Nat
  LogIndex : Nat
deriving DecidableEq, Repr

/-- Modelled from the spec: the total order on Fork Event Keys — primary key
block number ascending, tie-break log index ascending. -/
def innerForkLe (a b : InnerForkEvent) : Prop :=
  a.BlockNumber < b.BlockNumber ∨
    (a.BlockNumber = b.BlockNumber ∧ a.LogIndex ≤ b.LogIndex)

instance : DecidableRel innerForkLe := fun a b => by
  unfold innerForkLe; exact inferInstance

instance : IsTotal InnerForkEvent innerForkLe :=
  ⟨by intro a b; unfold innerForkLe; omega⟩

instance : IsTrans InnerForkEvent innerForkLe :=
  ⟨by intro a b c; unfold innerForkLe; omega⟩

/-- Modelled from the spec: `sort.Sort` on an `InnerForkEventList`
(the comparison-sort algorithm is irrelevant to the ordering contract;
insertion sort is used as the executable stand-in). -/
def sortForkEvents (l : List InnerForkEvent) : List InnerForkEvent :=
  l.insertionSort innerForkLe

/-! ## ABI Decode Registry handlers (extractor)

The per-signature handlers from the extractor file.  A handler's observable
behaviour is the ordered list of `eventemitter.Emit` calls it makes, whether
it logged an error-level diagnostic, and the error it returns (always nil in
the source).  `ConvertDown` of the raw ABI payloads lives in ethaccessor
(not under src); its output is therefore an input of the model, carried in
the `Event` field that the dispatcher populates before invoking the handler. -/

/-- The downstream topic names (`eventemitter` constants) referenced by the
handlers under src.  `AddressDeAuthorized` is modelled from the spec as the
would-be separate deauthorization topic; no handler under src ever emits
on it. -/
inductive Topic
  | OrderManagerExtractorRingMined
  | OrderManagerExtractorFill
  | TxManagerOrderFilledEvent
  | OrderManagerExtractorCancel
  | TxManagerOrderCancelledEvent
  | AccountTransfer
  | TxManagerTransferEvent
  | AddressAuthorized
  | AddressDeAuthorized
deriving DecidableEq, Repr

/-- types.OrderFilledEvent: the fields the ring-mined handler reads or
writes.  `OrderHash`, `Owner` come from `ConvertDown`; `TokenS`, `TokenB`,
`Owner`, `Market` are overwritten from the stored order when it matches;
`SellTo`/`BuyFrom` are assigned in the counterparty loop. -/
structure OrderFilledEvent where
  OrderHash : Str
  TokenS : Str
  TokenB : Str
  Owner : Str
  Market : Str
  SellTo : Str
  BuyFrom : Str
deriving DecidableEq, Repr

/-- The fields of a stored order returned by the order-store collaborator
(`db.GetOrdersByHash`), per spec section 6. -/
structure StoredOrder where
  TokenS : Str
  TokenB : Str
  Owner : Str
deriving DecidableEq, Repr

/-- Result of `RingMinedEvent.ConvertDown()` (ethaccessor, not under src):
a settlement summary plus the per-order fill list, or an error. -/
structure RingMinedRaw where
  convertErr : Bool
  fills : List OrderFilledEvent
deriving DecidableEq, Repr

/-- extractor `EventData`: the dispatched log payload.  `Topics` are the raw
indexed topics; `Event` is the typed payload placeholder, already populated
with the non-indexed (ABI-unpacked) fields by the dispatcher. -/
structure EventData (ε : Type) where
  Topics : List Str
  Event : ε
deriving DecidableEq, Repr

/-- A domain event published on a downstream topic. -/
inductive OutEvent
  | ringMined
  | fill (f : OrderFilledEvent)
  | cancel (orderHash : Str)
  | transfer (sender receiver : Str)
  | authorized (contractAddress : Str)
  | deauthorized (contractAddress : Str)
deriving DecidableEq, Repr

/-- Observable outcome of one handler invocation: the `Emit` calls in order,
whether an error-level diagnostic was logged, and the returned error
(`none` = nil). -/
structure HResult where
  emits : List (Topic × OutEvent)
  errLogged : Bool
  err : Option Unit
deriving DecidableEq, Repr

/-- The body of the ring-mined handler's matching loop: if the order store
has the fill's order hash, attach the stored order's token addresses and
owner and the market id (`WrapMarketByAddress(v.TokenB.Hex(), v.TokenS.Hex())`,
whose error is discarded leaving the empty string); otherwise leave the fill
unchanged (it is only debug-logged). -/
def enrichFill (st : MarketState) (ordermap : Str → Option StoredOrder)
    (v : OrderFilledEvent) : OrderFilledEvent :=
  match ordermap v.OrderHash with
  | some ord =>
    { v with TokenS := ord.TokenS, TokenB := ord.TokenB, Owner := ord.Owner,
             Market :=
               match WrapMarketByAddress st ord.TokenB ord.TokenS with
               | Except.ok mk => mk
               | Except.error _ => [] }
  | none => v

/-- The sell-to counterparty assignment of the ring-mined handler's second
loop: the next fill's owner, the first fill's owner for the last element
(`if i == length-1 { fill.SellTo = fillList[0].Owner } else
{ fill.SellTo = fillList[i+1].Owner }`). -/
def sellToOwner (l : List OrderFilledEvent) (i : Fin l.length) : Str :=
  if _h : i.val = l.length - 1 then (l.get ⟨0, by have := i.isLt; omega⟩).Owner
  else (l.get ⟨i.val + 1, by have := i.isLt; omega⟩).Owner

/-- The buy-from counterparty assignment of the ring-mined handler's second
loop: the previous fill's owner, the last fill's owner for the first element
(`if i == 0 { fill.BuyFrom = fillList[length-1].Owner } else
{ fill.BuyFrom = fillList[i-1].Owner }`). -/
def buyFromOwner (l : List OrderFilledEvent) (i : Fin l.length) : Str :=
  if _h : i.val = 0 then (l.get ⟨l.length - 1, by have := i.isLt; omega⟩).Owner
  else (l.get ⟨i.val - 1, by have := i.isLt; omega⟩).Owner

/-- extractor `handleRingMinedEvent`.  Control flow from the source: check
for at least 2 topics; `ConvertDown` (error → log and return nil); emit the
settlement summary; collect the fill list; ask the order store for the
orders by hash (error → log and return nil); first loop: fills whose order
is found get token addresses, owner and market attached and are emitted on
the order-manager fill topic, unmatched fills are only debug-logged; second
loop over the WHOLE fill list: assign each fill the next fill's owner as
sell-to and the previous fill's owner as buy-from (wrapping around) and emit
it on the transaction-manager fill topic. -/
def handleRingMinedEvent (st : MarketState) (input : EventData RingMinedRaw)
    (db : Except Unit (Str → Option StoredOrder)) : HResult :=
  if input.Topics.length < 2 then ⟨[], true, none⟩
  else if input.Event.convertErr then ⟨[], true, none⟩
  else
    match db with
    | Except.error _ => ⟨[(Topic.OrderManagerExtractorRingMined, OutEvent.ringMined)], true, none⟩
    | Except.ok ordermap =>
      let fillList := input.Event.fills
      let fillList2 := fillList.map (enrichFill st ordermap)
      let emitsOM := (fillList2.filter (fun v => (ordermap v.OrderHash).isSome)).map
        (fun v => (Topic.OrderManagerExtractorFill, OutEvent.fill v))
      let emitsTM := (List.ofFn (fun i : Fin fillList2.length =>
        { fillList2.get i with
            SellTo := sellToOwner fillList2 i,
            BuyFrom := buyFromOwner fillList2 i })).map
        (fun v => (Topic.TxManagerOrderFilledEvent, OutEvent.fill v))
      ⟨(Topic.OrderManagerExtractorRingMined, OutEvent.ringMined) :: emitsOM ++ emitsTM,
        false, none⟩

/-- extractor `handleOrderCancelledEvent`: requires 2 topics (signature +
indexed order hash); on success publishes the cancellation on the
order-manager cancel topic and the transaction-manager cancel topic. -/
def handleOrderCancelledEvent (input : EventData Int) : HResult :=
  if input.Topics.length < 2 then ⟨[], true, none⟩
  else
    let orderHash := input.Topics.getD 1 []
    ⟨[(Topic.OrderManagerExtractorCancel, OutEvent.cancel orderHash),
      (Topic.TxManagerOrderCancelledEvent, OutEvent.cancel orderHash)], false, none⟩

/-- extractor `handleTransferEvent`: requires 3 topics (signature + indexed
from/to); on success publishes the transfer on the account topic and the
transaction-manager topic. -/
def handleTransferEvent (input : EventData Int) : HResult :=
  if input.Topics.length < 3 then ⟨[], true, none⟩
  else
    let sender := input.Topics.getD 1 []
    let receiver := input.Topics.getD 2 []
    ⟨[(Topic.AccountTransfer, OutEvent.transfer sender receiver),
      (Topic.TxManagerTransferEvent, OutEvent.transfer sender receiver)], false, none⟩

/-- extractor `handleAddressAuthorizedEvent`: requires 2 topics; publishes
the decoded event on `eventemitter.AddressAuthorized`. -/
def handleAddressAuthorizedEvent (input : EventData Int) : HResult :=
  if input.Topics.length < 2 then ⟨[], true, none⟩
  else ⟨[(Topic.AddressAuthorized, OutEvent.authorized (input.Topics.getD 1 []))],
    false, none⟩

/-- extractor `handleAddressDeAuthorizedEvent`: requires 2 topics; the
source emits the decoded deauthorization event on
`eventemitter.AddressAuthorized` — the same topic constant the authorization
handler uses. -/
def handleAddressDeAuthorizedEvent (input : EventData Int) : HResult :=
  if input.Topics.length < 2 then ⟨[], true, none⟩
  else ⟨[(Topic.AddressAuthorized, OutEvent.deauthorized (input.Topics.getD 1 []))],
    false, none⟩

/-- Observer: the fill payloads published on one topic, in emission order. -/
def fillsOn (t : Topic) (emits : List (Topic × OutEvent)) : List OrderFilledEvent :=
  emits.filterMap (fun e =>
    if e.1 = t then
      match e.2 with
      | OutEvent.fill f => some f
      | _ => none
    else none)

/-- Observer: the owner a fill ends up with after the matching step — the
stored order's owner when the hash is found, the fill's own owner field
otherwise. -/
def postOwner (ordermap : Str → Option StoredOrder) (fills : List OrderFilledEvent)
    (j : Fin fills.length) : Str :=
  match ordermap (fills.get j).OrderHash with
  | some ord => ord.Owner
  | none => (fills.get j).Owner

/-- Observer: the fills published on the order-manager fill topic by one
ring-mined dispatch. -/
def ringOM (st : MarketState) (input : EventData RingMinedRaw)
    (ordermap : Str → Option StoredOrder) : List OrderFilledEvent :=
  fillsOn Topic.OrderManagerExtractorFill
    (handleRingMinedEvent st input (Except.ok ordermap)).emits

/-- Observer: the fills published on the transaction-manager fill topic by
one ring-mined dispatch. -/
def ringTM (st : MarketState) (input : EventData RingMinedRaw)
    (ordermap : Str → Option StoredOrder) : List OrderFilledEvent :=
  fillsOn Topic.TxManagerOrderFilledEvent
    (handleRingMinedEvent st input (Except.ok ordermap)).emits

/-! ## Concrete fixtures used by counterexamples and witnesses -/

/-- The symbol "lrc" (code points of l, r, c). -/
def sLRC : Str := [108, 114, 99]

/-- The symbol "eth". -/
def sETH : Str := [101, 116, 104]

/-- The symbol "omg". -/
def sOMG : Str := [111, 109, 103]

/-- The symbol "weth". -/
def sWETH : Str := [119, 101, 116, 104]

/-- A token with symbol "lrc" and address "0xa". -/
def tokLRC : Token := ⟨sLRC, [48, 120, 97]⟩

/-- A token with symbol "eth" and address "0xe". -/
def tokETH : Token := ⟨sETH, [48, 120, 101]⟩

/-- A token with symbol "omg" and address "0xo". -/
def tokOMG : Token := ⟨sOMG, [48, 120, 111]⟩

/-- A token with symbol "weth" and address "0xw". -/
def tokWETH : Token := ⟨sWETH, [48, 120, 119]⟩

/-- Registry snapshot obtained by initializing a fresh process with tokens
{lrc, eth} and market {eth} (markets are a subset of tokens, as in the
deployed configuration). -/
def regA : MarketState :=
  (Initialize emptyMarketState (Except.ok [tokLRC, tokETH])
    (Except.ok [tokETH])).toOption.getD emptyMarketState

/-- Registry snapshot after a first initialization with token {lrc} and
market {eth}. -/
def c1_st1 : MarketState :=
  (Initialize emptyMarketState (Except.ok [tokLRC])
    (Except.ok [tokETH])).toOption.getD emptyMarketState

/-- Registry snapshot after re-initializing `c1_st1` with the disjoint
snapshot token {omg} and market {weth}. -/
def c1_st2 : MarketState :=
  (Initialize c1_st1 (Except.ok [tokOMG])
    (Except.ok [tokWETH])).toOption.getD c1_st1

/-- The order hash "h1". -/
def hashOne : Str := [104, 49]

/-- The order hash "h2". -/
def hashTwo : Str := [104, 50]

/-- The owner address string "oA" of the stored order for h1. -/
def ownerA : Str := [111, 65]

/-- The stored order the order store returns for hash h1. -/
def storedOne : StoredOrder := ⟨[116, 83], [116, 66], ownerA⟩

/-- An order-store response that knows h1 but not h2. -/
def omC3 (h : Str) : Option StoredOrder :=
  if h = hashOne then some storedOne else none

/-- A fill referencing order hash h1, all other fields empty. -/
def fillOne : OrderFilledEvent := ⟨hashOne, [], [], [], [], [], []⟩

/-- A fill referencing order hash h2 (absent from the store). -/
def fillTwo : OrderFilledEvent := ⟨hashTwo, [], [], [], [], [], []⟩

/-- A dispatched ring-mined payload with two topics and the fills
(h1, h2). -/
def inC3 : EventData RingMinedRaw := ⟨[[116, 48], [116, 49]], ⟨false, [fillOne, fillTwo]⟩⟩

/-! ## C1 — Initialize snapshot replacement -/

/-- Claim C1 (code_bug evidence): re-running `Initialize` with a fresh
token/market source does NOT fully replace the derived tables.  After
initializing with (lrc, eth) and re-initializing with (omg, weth), the map
`AllTokens` holds exactly the new snapshot, but `AllMarkets` still contains
the prior snapshot's "lrc-eth" entry and `AllTokenPairs` still contains the
prior snapshot's (0xa, 0xe) pair: the source re-makes the three maps but
only appends to the two slices. -/
theorem Initialize_residual_entries :
    c1_st2.AllTokens = [(sOMG, tokOMG)] ∧
    c1_st2.AllMarkets = [sLRC ++ hyphen :: sETH, sOMG ++ hyphen :: sWETH] ∧
    (sLRC ++ hyphen :: sETH) ∈ c1_st2.AllMarkets ∧
    (⟨[48, 120, 97], [48, 120, 101]⟩ : TokenPair) ∈ c1_st2.AllTokenPairs := by
  decide

/-! ## C4 — fatal initialization conditions -/

/-- Claim C4 counterexample: a source that returns zero records together
with no error does not abort `Initialize` — the source only aborts when a
source call returns an error.  Both an empty token source and an empty
market source are accepted. -/
theorem Initialize_ok_on_empty_sources :
    Initialize emptyMarketState (Except.ok []) (Except.ok []) ≠ Except.error () ∧
    Initialize emptyMarketState (Except.ok [tokLRC]) (Except.ok []) ≠ Except.error () :=
  ⟨fun h => Except.noConfusion h, fun h => Except.noConfusion h⟩

/-- Claim C4 (amended): `Initialize` aborts the process exactly when the
token source or the market source returns an error; a source returning zero
records with no error is accepted, and then the corresponding registry
tables are simply empty after the call. -/
theorem Initialize_fatal_iff_source_error (st : MarketState)
    (t m : Except Unit (List Token)) :
    (Initialize st t m = Except.error () ↔
      t = Except.error () ∨ m = Except.error ()) ∧
    (∀ res : MarketState, Initialize st (Except.ok []) (Except.ok []) = Except.ok res →
      res.SupportTokens = [] ∧ res.SupportMarkets = [] ∧ res.AllTokens = []) := by
  constructor
  · cases t with
    | error e => cases e; simp [Initialize]
    | ok tokens =>
      cases m with
      | error e => cases e; simp [Initialize]
      | ok markets => simp [Initialize]
  · intro res h
    have h2 : res = ⟨[], [], [], st.AllMarkets ++ [], st.AllTokenPairs ++ []⟩ := by
      simpa [Initialize, buildTokenMap, pairsMapBuild, valuesA] using h.symm
    rw [h2]
    exact ⟨rfl, rfl, rfl⟩

/-- Witness for C4: the amended theorem applied at the empty registry and
two empty-but-successful sources. -/
theorem Initialize_fatal_iff_source_error_witness :
    (Initialize emptyMarketState (Except.ok []) (Except.ok []) = Except.error () ↔
      (Except.ok [] : Except Unit (List Token)) = Except.error () ∨
      (Except.ok [] : Except Unit (List Token)) = Except.error ()) ∧
    (Initialize emptyMarketState (Except.ok []) (Except.ok [])
        = Except.ok emptyMarketState →
      emptyMarketState.SupportTokens = [] ∧ emptyMarketState.SupportMarkets = [] ∧
      emptyMarketState.AllTokens = []) :=
  ⟨(Initialize_fatal_iff_source_error emptyMarketState (Except.ok []) (Except.ok [])).1,
   (Initialize_fatal_iff_source_error emptyMarketState (Except.ok [])
      (Except.ok [])).2 emptyMarketState⟩

/-! ## C6 — Fork Event Key ordering -/

/-- Claim C6: sorting a Fork Event Key list orders it by block number
ascending with log index as the tie-break within a block (the result is
sorted under that order and is a permutation of the input), and the list
[(32,3), (32,2), (35,3)] sorts to [(32,2), (32,3), (35,3)]. -/
theorem innerForkEventList_sort_spec :
    (∀ l : List InnerForkEvent,
      List.Sorted innerForkLe (sortForkEvents l) ∧ List.Perm (sortForkEvents l) l) ∧
    sortForkEvents [⟨32, 3⟩, ⟨32, 2⟩, ⟨35, 3⟩] = [⟨32, 2⟩, ⟨32, 3⟩, ⟨35, 3⟩] := by
  refine ⟨fun l => ⟨List.sorted_insertionSort _ l, List.perm_insertionSort _ l⟩, ?_⟩
  decide

/-! ## C8 — CalculatePrice zero-safety -/

/-- Claim C8: whenever either serialized amount decodes to the integer zero,
`CalculatePrice` returns exactly 0 regardless of the other amount and of the
symbol arguments, so the division in the other branch is never reached with
a zero denominator. -/
theorem CalculatePrice_zero_when_zero (st : MarketState) (amountS amountB s b : Str)
    (h : decodeAmount amountS = 0 ∨ decodeAmount amountB = 0) :
    CalculatePrice st amountS amountB s b = 0 := by
  have hz : ∀ a : Str, decodeAmount a = 0 → ByteToFloat a = 0 := by
    intro a ha
    unfold ByteToFloat
    rw [ha, show bigIntInt64 0 = 0 from by decide]
    simp
  simp only [CalculatePrice]
  rcases h with h | h
  · rw [if_pos (Or.inl (hz _ h))]
  · rw [if_pos (Or.inr (hz _ h))]

/-- Witness for C8: a zero sell amount ("0") against a nonzero buy amount
("5") yields price 0. -/
theorem CalculatePrice_zero_when_zero_witness :
    CalculatePrice regA [48] [53] sLRC sETH = 0 :=
  CalculatePrice_zero_when_zero regA [48] [53] sLRC sETH (Or.inl (by decide))

/-! ## C9 — deauthorization topic -/

/-- Claim C9: for every dispatched AddressDeauthorized payload with enough
topics, the deauthorization handler publishes its decoded event on
`Topic.AddressAuthorized` — the identical topic the authorization handler
publishes on — and never on the separate deauthorization topic. -/
theorem handleAddressDeAuthorized_same_topic (input : EventData Int)
    (h : 2 ≤ input.Topics.length) :
    (handleAddressDeAuthorizedEvent input).emits.map Prod.fst = [Topic.AddressAuthorized] ∧
    (handleAddressAuthorizedEvent input).emits.map Prod.fst = [Topic.AddressAuthorized] ∧
    ∀ p ∈ (handleAddressDeAuthorizedEvent input).emits, p.1 ≠ Topic.AddressDeAuthorized := by
  unfold handleAddressDeAuthorizedEvent handleAddressAuthorizedEvent
  simp only [if_neg (show ¬input.Topics.length < 2 by omega)]
  refine ⟨rfl, rfl, ?_⟩
  intro p hp
  simp only [List.mem_singleton] at hp
  rw [hp]
  exact fun hc => Topic.noConfusion hc

/-- Witness for C9: a two-topic deauthorization payload. -/
theorem handleAddressDeAuthorized_same_topic_witness :
    (handleAddressDeAuthorizedEvent ⟨[[0], [1]], 0⟩).emits.map Prod.fst
      = [Topic.AddressAuthorized] ∧
    (handleAddressAuthorizedEvent ⟨[[0], [1]], 0⟩).emits.map Prod.fst
      = [Topic.AddressAuthorized] :=
  ⟨(handleAddressDeAuthorized_same_topic ⟨[[0], [1]], 0⟩ (by decide)).1,
   (handleAddressDeAuthorized_same_topic ⟨[[0], [1]], 0⟩ (by decide)).2.1⟩

/-! ## C7 — short-topic payloads -/

/-- Claim C7: a dispatched log payload with fewer indexed topics than its
handler requires makes the handler log a diagnostic, publish nothing, and
return nil — for the transfer handler (3 topics required), the
order-cancelled handler (2 required) and the ring-mined handler (2
required). -/
theorem handlers_short_topics_no_emit (st : MarketState)
    (db : Except Unit (Str → Option StoredOrder))
    (i1 i2 : EventData Int) (i3 : EventData RingMinedRaw)
    (h1 : i1.Topics.length < 3) (h2 : i2.Topics.length < 2)
    (h3 : i3.Topics.length < 2) :
    handleTransferEvent i1 = ⟨[], true, none⟩ ∧
    handleOrderCancelledEvent i2 = ⟨[], true, none⟩ ∧
    handleRingMinedEvent st i3 db = ⟨[], true, none⟩ := by
  refine ⟨?_, ?_, ?_⟩
  · unfold handleTransferEvent; rw [if_pos h1]
  · unfold handleOrderCancelledEvent; rw [if_pos h2]
  · unfold handleRingMinedEvent; rw [if_pos h3]

/-- Witness for C7: payloads with empty topic lists. -/
theorem handlers_short_topics_no_emit_witness :
    handleTransferEvent ⟨[], 0⟩ = ⟨[], true, none⟩ ∧
    handleOrderCancelledEvent ⟨[], 0⟩ = ⟨[], true, none⟩ ∧
    handleRingMinedEvent emptyMarketState ⟨[], ⟨false, []⟩⟩ (Except.error ())
      = ⟨[], true, none⟩ :=
  handlers_short_topics_no_emit emptyMarketState (Except.error ())
    ⟨[], 0⟩ ⟨[], 0⟩ ⟨[], ⟨false, []⟩⟩ (by decide) (by decide) (by decide)

/-! ## C2 — WrapMarket canonical order -/

/-- Claim C2 counterexample: with market "eth" and token "lrc" registered,
`WrapMarket("eth", "lrc")` succeeds but returns "lrc-eth" — the TOKEN symbol
first and the market symbol second — not the "eth-lrc" (market first) form
the claim states. -/
theorem WrapMarket_not_market_first :
    WrapMarket regA sETH sLRC = Except.ok (sLRC ++ hyphen :: sETH) ∧
    sLRC ++ hyphen :: sETH ≠ sETH ++ hyphen :: sLRC :=
  ⟨rfl, by decide⟩

/-- Claim C2 (amended): for identifiers `m` and `t` whose lower-cased forms
are a registered market and a supported token respectively (and which are
not simultaneously a market/token pair the other way around, which would
make the first branch win for the swapped call), `WrapMarket(m, t)` and
`WrapMarket(t, m)` both succeed and both return the canonical lower-cased
string "<t>-<m>" — the token symbol first, the market symbol second. -/
theorem WrapMarket_token_first_both_orders (st : MarketState) (m t : Str)
    (hm : IsSupportedMarket st (toLower m) = true)
    (ht : IsSupportedToken st (toLower t) = true)
    (hno : ¬(IsSupportedMarket st (toLower t) = true ∧
             IsSupportedToken st (toLower m) = true)) :
    WrapMarket st m t = Except.ok (toLower t ++ hyphen :: toLower m) ∧
    WrapMarket st t m = Except.ok (toLower t ++ hyphen :: toLower m) := by
  constructor
  · simp [WrapMarket, hm, ht]
  · cases hA : IsSupportedMarket st (toLower t) with
    | true => cases hB : IsSupportedToken st (toLower m) with
      | true => exact absurd ⟨hA, hB⟩ hno
      | false => simp [WrapMarket, hA, hB, hm, ht]
    | false => simp [WrapMarket, hA, hm, ht]

/-- Witness for C2: the amended theorem at market "eth", token "lrc" in the
concrete registry `regA`. -/
theorem WrapMarket_token_first_both_orders_witness :
    WrapMarket regA sETH sLRC = Except.ok (toLower sLRC ++ hyphen :: toLower sETH) ∧
    WrapMarket regA sLRC sETH = Except.ok (toLower sLRC ++ hyphen :: toLower sETH) :=
  WrapMarket_token_first_both_orders regA sETH sLRC (by decide) (by decide) (by decide)

/-! ## C10 — int64 truncation in ByteToFloat -/

/-- Claim C10: `ByteToFloat` truncates the decoded big integer to a signed
64-bit value before scaling: when the decoded integer fits in int64 the
result is exactly that integer divided by 1e18, and for decoded integers of
2^63 or more the result is NOT the true scaled amount — so `CalculatePrice`
is faithful only under the precondition that both raw amounts fit in
int64. -/
theorem ByteToFloat_int64_truncation (amount : Str) (x : Int)
    (hx : decodeAmount amount = x) :
    ((-(2 ^ 63) ≤ x ∧ x < 2 ^ 63) → ByteToFloat amount = (x : ℚ) / weiToEther) ∧
    (2 ^ 63 ≤ x → ByteToFloat amount ≠ (x : ℚ) / weiToEther) := by
  constructor
  · rintro ⟨h1, h2⟩
    have hb : bigIntInt64 x = x := by
      simp only [bigIntInt64]
      split_ifs <;> omega
    unfold ByteToFloat
    rw [hx, hb]
  · intro h
    have hb : bigIntInt64 x < 2 ^ 63 := by
      simp only [bigIntInt64]
      split_ifs <;> omega
    have hne : bigIntInt64 x ≠ x := by omega
    unfold ByteToFloat
    rw [hx]
    intro heq
    have h10 : weiToEther ≠ 0 := by norm_num [weiToEther]
    rw [div_eq_div_iff h10 h10] at heq
    have h11 := mul_right_cancel₀ h10 heq
    exact hne (by exact_mod_cast h11)

/-- Witness for C10: the amount "9223372036854775808" decodes to 2^63,
which triggers the truncated branch. -/
theorem ByteToFloat_int64_truncation_witness :
    ((-(2 ^ 63) ≤ (9223372036854775808 : Int) ∧
        (9223372036854775808 : Int) < 2 ^ 63) →
      ByteToFloat [57, 50, 50, 51, 51, 55, 50, 48, 51, 54, 56, 53, 52, 55, 55, 53, 56, 48, 56]
        = ((9223372036854775808 : Int) : ℚ) / weiToEther) ∧
    (2 ^ 63 ≤ (9223372036854775808 : Int) →
      ByteToFloat [57, 50, 50, 51, 51, 55, 50, 48, 51, 54, 56, 53, 52, 55, 55, 53, 56, 48, 56]
        ≠ ((9223372036854775808 : Int) : ℚ) / weiToEther) :=
  ByteToFloat_int64_truncation
    [57, 50, 50, 51, 51, 55, 50, 48, 51, 54, 56, 53, 52, 55, 55, 53, 56, 48, 56]
    9223372036854775808 (by decide)

/-! ## C5 — UnWrap round-trip -/

theorem charLower_idem (c : Nat) : charLower (charLower c) = charLower c := by
  unfold charLower
  split_ifs <;> omega

theorem toLower_idem (s : Str) : toLower (toLower s) = toLower s := by
  induction s with
  | nil => rfl
  | cons x xs ih =>
    simp only [toLower, List.map_cons] at ih ⊢
    rw [charLower_idem, ih]

theorem splitOnChar_not_mem (c : Nat) (m : Str) (h : c ∉ m) :
    splitOnChar c m = [m] := by
  induction m with
  | nil => rfl
  | cons x xs ih =>
    have hx : x ≠ c := fun he => h (he ▸ List.mem_cons_self x xs)
    have hxs : c ∉ xs := fun hm => h (List.mem_cons_of_mem x hm)
    simp only [splitOnChar, if_neg hx]
    rw [ih hxs]

theorem splitOnChar_sep (c : Nat) (t m : Str) (ht : c ∉ t) :
    splitOnChar c (t ++ c :: m) = t :: splitOnChar c m := by
  induction t with
  | nil => simp [splitOnChar]
  | cons x xs ih =>
    have hx : x ≠ c := fun he => ht (he ▸ List.mem_cons_self x xs)
    have hxs : c ∉ xs := fun hm => ht (List.mem_cons_of_mem x hm)
    rw [List.cons_append]
    simp only [splitOnChar, if_neg hx]
    rw [ih hxs]

theorem splitOnChar_pair (c : Nat) (t m : Str) (ht : c ∉ t) (hm : c ∉ m) :
    splitOnChar c (t ++ c :: m) = [t, m] := by
  rw [splitOnChar_sep c t m ht, splitOnChar_not_mem c m hm]

theorem countChar_dropWhile (c : Nat) (p : Nat → Bool) (s : Str)
    (hc : p c = false) : countChar c (s.dropWhile p) = countChar c s := by
  induction s with
  | nil => rfl
  | cons x xs ih =>
    rw [List.dropWhile_cons]
    split_ifs with hx
    · have hxc : x ≠ c := fun he => by rw [he, hc] at hx; cases hx
      rw [ih]
      simp [countChar, hxc]
    · rfl

theorem countChar_append (c : Nat) (s t : Str) :
    countChar c (s ++ t) = countChar c s + countChar c t := by
  induction s with
  | nil => simp [countChar]
  | cons x xs ih => simp [countChar, ih]; omega

theorem countChar_reverse (c : Nat) (s : Str) :
    countChar c s.reverse = countChar c s := by
  induction s with
  | nil => rfl
  | cons x xs ih =>
    rw [List.reverse_cons, countChar_append]
    simp [countChar, ih]
    omega

theorem countChar_trim (c : Nat) (s : Str) (hc : isSpace c = false) :
    countChar c (trimSpace s) = countChar c s := by
  unfold trimSpace
  rw [countChar_reverse, countChar_dropWhile c _ _ hc, countChar_reverse,
    countChar_dropWhile c _ _ hc]

theorem length_splitOnChar (c : Nat) (l : Str) :
    (splitOnChar c l).length = countChar c l + 1 := by
  induction l with
  | nil => rfl
  | cons x xs ih =>
    simp only [splitOnChar, countChar]
    split_ifs with hx
    · simp [ih, hx]
      omega
    · rcases hr : splitOnChar c xs with _ | ⟨hd, tl⟩
      · rw [hr] at ih; simp at ih
      · rw [hr] at ih
        simp at ih ⊢
        omega

/-- `UnWrap` is the degenerate pair of empty strings on any input that does
not contain exactly one hyphen. -/
theorem UnWrap_not_one_hyphen (u : Str) (h : countChar hyphen u ≠ 1) :
    UnWrap u = ([], []) := by
  have hcount : countChar hyphen (trimSpace u) ≠ 1 := by
    rw [countChar_trim hyphen u (by decide)]; exact h
  have hlen : (splitOnChar hyphen (trimSpace u)).length ≠ 2 := by
    rw [length_splitOnChar]; omega
  unfold UnWrap
  rcases hs : splitOnChar hyphen (trimSpace u) with _ | ⟨a, _ | ⟨b, _ | ⟨x, t⟩⟩⟩
  · rfl
  · rfl
  · rw [hs] at hlen; simp at hlen
  · rfl

theorem UnWrap_sep (t m : Str) (ht : hyphen ∉ t) (hm : hyphen ∉ m)
    (htr : trimSpace (t ++ hyphen :: m) = t ++ hyphen :: m) :
    UnWrap (t ++ hyphen :: m) = (toLower t, toLower m) := by
  unfold UnWrap
  rw [htr, splitOnChar_pair hyphen t m ht hm]

/-- Claim C5 counterexample: wrapping market "eth" against token "lrc"
yields "lrc-eth", and unwrapping that returns ("lrc", "eth") — the TOKEN
symbol as the first component and the market symbol as the second, not the
(market, token) order the claim states. -/
theorem UnWrap_roundtrip_token_first :
    WrapMarket regA sETH sLRC = Except.ok (sLRC ++ hyphen :: sETH) ∧
    UnWrap (sLRC ++ hyphen :: sETH) = (sLRC, sETH) ∧
    (sLRC, sETH) ≠ (sETH, sLRC) :=
  ⟨rfl, by decide, by decide⟩

/-- Claim C5 (amended): for every pair on which `WrapMarket` succeeds (with
hyphen-free symbols whose wrapped form survives `TrimSpace` unchanged),
`UnWrap` of the result returns the lower-cased (tokenSymbol, marketSymbol)
pair — the token symbol first and the market symbol second; and for every
string that does not contain exactly one hyphen, `UnWrap` returns two empty
strings. -/
theorem UnWrap_WrapMarket_roundtrip (st : MarketState) (a b w : Str)
    (hw : WrapMarket st a b = Except.ok w)
    (hna : hyphen ∉ toLower a) (hnb : hyphen ∉ toLower b)
    (htr : trimSpace w = w) :
    ((IsSupportedMarket st (toLower a) = true ∧ IsSupportedToken st (toLower b) = true ∧
        UnWrap w = (toLower b, toLower a)) ∨
      (IsSupportedMarket st (toLower b) = true ∧ IsSupportedToken st (toLower a) = true ∧
        UnWrap w = (toLower a, toLower b))) ∧
    (∀ u : Str, countChar hyphen u ≠ 1 → UnWrap u = ([], [])) := by
  refine ⟨?_, fun u hu => UnWrap_not_one_hyphen u hu⟩
  simp only [WrapMarket] at hw
  by_cases h1 : (IsSupportedMarket st (toLower a) && IsSupportedToken st (toLower b)) = true
  · rw [if_pos h1] at hw
    obtain ⟨hA, hB⟩ := Bool.and_eq_true_iff.mp h1
    left
    refine ⟨hA, hB, ?_⟩
    injection hw with hw
    rw [← hw, UnWrap_sep (toLower b) (toLower a) hnb hna (by rw [hw]; exact htr),
      toLower_idem, toLower_idem]
  · rw [if_neg h1] at hw
    by_cases h2 : (IsSupportedMarket st (toLower b) && IsSupportedToken st (toLower a)) = true
    · rw [if_pos h2] at hw
      obtain ⟨hA, hB⟩ := Bool.and_eq_true_iff.mp h2
      right
      refine ⟨hA, hB, ?_⟩
      injection hw with hw
      rw [← hw, UnWrap_sep (toLower a) (toLower b) hna hnb (by rw [hw]; exact htr),
        toLower_idem, toLower_idem]
    · rw [if_neg h2] at hw
      exact Except.noConfusion hw

/-- Witness for C5: the amended round-trip at market "eth", token "lrc" in
the concrete registry `regA`. -/
theorem UnWrap_WrapMarket_roundtrip_witness :
    (IsSupportedMarket regA (toLower sETH) = true ∧
        IsSupportedToken regA (toLower sLRC) = true ∧
        UnWrap (sLRC ++ hyphen :: sETH) = (toLower sLRC, toLower sETH)) ∨
      (IsSupportedMarket regA (toLower sLRC) = true ∧
        IsSupportedToken regA (toLower sETH) = true ∧
        UnWrap (sLRC ++ hyphen :: sETH) = (toLower sETH, toLower sLRC)) :=
  (UnWrap_WrapMarket_roundtrip regA sETH sLRC (sLRC ++ hyphen :: sETH)
    rfl (by decide) (by decide) (by decide)).1

/-! ## C3 — ring-mined fill publication -/

theorem filter_map_general {α β : Type} (f : α → β) (p : β → Bool) (l : List α) :
    (l.map f).filter p = (l.filter (fun x => p (f x))).map f := by
  induction l with
  | nil => rfl
  | cons x xs ih =>
    simp only [List.map_cons, List.filter_cons]
    by_cases h : p (f x) = true
    · simp [h, ih]
    · simp [h, ih]

theorem map_congr_fn {α β : Type} (f g : α → β) (l : List α) (h : ∀ x, f x = g x) :
    l.map f = l.map g := by
  rw [funext h]

theorem filter_congr_fn {α : Type} (p q : α → Bool) (l : List α) (h : ∀ x, p x = q x) :
    l.filter p = l.filter q := by
  rw [funext h]

theorem fillsOn_cons_ne (t t2 : Topic) (ev : OutEvent)
    (rest : List (Topic × OutEvent)) (h : ¬t2 = t) :
    fillsOn t ((t2, ev) :: rest) = fillsOn t rest := by
  simp [fillsOn, List.filterMap_cons, h]

theorem fillsOn_append (t : Topic) (l1 l2 : List (Topic × OutEvent)) :
    fillsOn t (l1 ++ l2) = fillsOn t l1 ++ fillsOn t l2 := by
  simp [fillsOn, List.filterMap_append]

theorem fillsOn_cons_fill_same (t : Topic) (f : OrderFilledEvent)
    (rest : List (Topic × OutEvent)) :
    fillsOn t ((t, OutEvent.fill f) :: rest) = f :: fillsOn t rest := by
  simp [fillsOn, List.filterMap_cons]

theorem fillsOn_map_fill_same (t : Topic) (l : List OrderFilledEvent) :
    fillsOn t (l.map (fun v => (t, OutEvent.fill v))) = l := by
  induction l with
  | nil => rfl
  | cons x xs ih =>
    rw [List.map_cons, fillsOn_cons_fill_same, ih]

theorem fillsOn_map_fill_ne (t t2 : Topic) (h : ¬t2 = t) (l : List OrderFilledEvent) :
    fillsOn t (l.map (fun v => (t2, OutEvent.fill v))) = [] := by
  induction l with
  | nil => rfl
  | cons x xs ih =>
    rw [List.map_cons, fillsOn_cons_ne t t2 _ _ h, ih]

theorem enrichFill_OrderHash (st : MarketState) (om : Str → Option StoredOrder)
    (v : OrderFilledEvent) : (enrichFill st om v).OrderHash = v.OrderHash := by
  unfold enrichFill
  cases om v.OrderHash <;> rfl

theorem enrichFill_Owner (st : MarketState) (om : Str → Option StoredOrder)
    (v : OrderFilledEvent) :
    (enrichFill st om v).Owner =
      match om v.OrderHash with
      | some ord => ord.Owner
      | none => v.Owner := by
  unfold enrichFill
  cases om v.OrderHash <;> rfl

theorem postOwner_eq_enrich (st : MarketState) (om : Str → Option StoredOrder)
    (fills : List OrderFilledEvent) (j : Fin fills.length) :
    postOwner om fills j = (enrichFill st om (fills.get j)).Owner := by
  rw [enrichFill_Owner]
  rfl

theorem l2_get_owner (st : MarketState) (om : Str → Option StoredOrder)
    (fills : List OrderFilledEvent) (k : Nat)
    (hk : k < (fills.map (enrichFill st om)).length) :
    ((fills.map (enrichFill st om)).get ⟨k, hk⟩).Owner
      = postOwner om fills ⟨k, by simpa using hk⟩ := by
  have hg : (fills.map (enrichFill st om)).get ⟨k, hk⟩
      = enrichFill st om (fills.get ⟨k, by simpa using hk⟩) := by
    simp [List.get_eq_getElem, List.getElem_map]
  rw [hg, ← postOwner_eq_enrich]

/-- Reduction of the ring-mined handler on the success path (enough topics,
no convert error, order store reachable). -/
theorem handleRingMined_reduce (st : MarketState) (input : EventData RingMinedRaw)
    (ordermap : Str → Option StoredOrder)
    (htop : 2 ≤ input.Topics.length) (hconv : input.Event.convertErr = false) :
    handleRingMinedEvent st input (Except.ok ordermap) =
      ⟨(Topic.OrderManagerExtractorRingMined, OutEvent.ringMined) ::
        ((input.Event.fills.map (enrichFill st ordermap)).filter
            (fun v => (ordermap v.OrderHash).isSome)).map
          (fun v => (Topic.OrderManagerExtractorFill, OutEvent.fill v)) ++
        (List.ofFn (fun i : Fin (input.Event.fills.map (enrichFill st ordermap)).length =>
          { (input.Event.fills.map (enrichFill st ordermap)).get i with
              SellTo := sellToOwner (input.Event.fills.map (enrichFill st ordermap)) i,
              BuyFrom := buyFromOwner (input.Event.fills.map (enrichFill st ordermap)) i })).map
          (fun v => (Topic.TxManagerOrderFilledEvent, OutEvent.fill v)),
        false, none⟩ := by
  unfold handleRingMinedEvent
  rw [if_neg (show ¬input.Topics.length < 2 by omega),
    if_neg (show ¬input.Event.convertErr = true by simp [hconv])]

/-- Claim C3 counterexample: a settlement with fills (h1, h2) where only h1
is in the order store.  The order-manager fill topic receives only the h1
fill, but the transaction-manager fill topic receives BOTH fills — the
unmatched h2 fill is published there, and the matched fill's sell-to is the
unmatched neighbour's (empty) owner rather than the next matched fill's
owner. -/
theorem handleRingMinedEvent_publishes_unmatched :
    (ringOM emptyMarketState inC3 omC3).map OrderFilledEvent.OrderHash = [hashOne] ∧
    (ringTM emptyMarketState inC3 omC3).map OrderFilledEvent.OrderHash
      = [hashOne, hashTwo] ∧
    (ringTM emptyMarketState inC3 omC3).map OrderFilledEvent.SellTo = [[], ownerA] ∧
    ownerA ≠ [] := by
  decide

/-- Claim C3 (amended): on the success path, the ring-mined handler returns
nil and (a) the order-manager fill topic receives exactly the fills whose
order hash is in the store, in list order, (b) the transaction-manager fill
topic receives EVERY fill of the settlement — matched or not — and (c) each
transaction-manager fill's sell-to is the owner of the next fill in the
full fill list and its buy-from the owner of the previous fill (indices mod
the list length), where each owner is the stored order's owner for matched
fills and the fill's original owner field for unmatched ones. -/
theorem handleRingMinedEvent_characterization (st : MarketState)
    (input : EventData RingMinedRaw) (ordermap : Str → Option StoredOrder)
    (htop : 2 ≤ input.Topics.length) (hconv : input.Event.convertErr = false) :
    (handleRingMinedEvent st input (Except.ok ordermap)).err = none ∧
    (ringOM st input ordermap).map OrderFilledEvent.OrderHash
      = (input.Event.fills.filter
          (fun v => (ordermap v.OrderHash).isSome)).map OrderFilledEvent.OrderHash ∧
    (ringTM st input ordermap).length = input.Event.fills.length ∧
    (∀ i : Fin input.Event.fills.length,
      ∀ hb : i.val < (ringTM st input ordermap).length,
        ((ringTM st input ordermap).get ⟨i.val, hb⟩).OrderHash
            = (input.Event.fills.get i).OrderHash ∧
        ((ringTM st input ordermap).get ⟨i.val, hb⟩).SellTo
            = postOwner ordermap input.Event.fills
                ⟨(i.val + 1) % input.Event.fills.length,
                  Nat.mod_lt _ (by have := i.isLt; omega)⟩ ∧
        ((ringTM st input ordermap).get ⟨i.val, hb⟩).BuyFrom
            = postOwner ordermap input.Event.fills
                ⟨(i.val + input.Event.fills.length - 1) % input.Event.fills.length,
                  Nat.mod_lt _ (by have := i.isLt; omega)⟩) := by
  have hred := handleRingMined_reduce st input ordermap htop hconv
  have hOM : ringOM st input ordermap
      = (input.Event.fills.map (enrichFill st ordermap)).filter
          (fun v => (ordermap v.OrderHash).isSome) := by
    unfold ringOM
    rw [hred]
    dsimp only
    rw [fillsOn_append,
      fillsOn_cons_ne Topic.OrderManagerExtractorFill Topic.OrderManagerExtractorRingMined
        OutEvent.ringMined _ (by decide),
      fillsOn_map_fill_same,
      fillsOn_map_fill_ne Topic.OrderManagerExtractorFill Topic.TxManagerOrderFilledEvent
        (by decide), List.append_nil]
  have hTM : ringTM st input ordermap
      = List.ofFn (fun i : Fin (input.Event.fills.map (enrichFill st ordermap)).length =>
          { (input.Event.fills.map (enrichFill st ordermap)).get i with
              SellTo := sellToOwner (input.Event.fills.map (enrichFill st ordermap)) i,
              BuyFrom := buyFromOwner (input.Event.fills.map (enrichFill st ordermap)) i }) := by
    unfold ringTM
    rw [hred]
    dsimp only
    rw [fillsOn_append,
      fillsOn_cons_ne Topic.TxManagerOrderFilledEvent Topic.OrderManagerExtractorRingMined
        OutEvent.ringMined _ (by decide),
      fillsOn_map_fill_ne Topic.TxManagerOrderFilledEvent Topic.OrderManagerExtractorFill
        (by decide),
      fillsOn_map_fill_same, List.nil_append]
  refine ⟨by rw [hred], ?_, ?_, ?_⟩
  · rw [hOM, filter_map_general]
    rw [List.map_map]
    rw [filter_congr_fn _ (fun v => (ordermap v.OrderHash).isSome) _
      (fun v => by rw [enrichFill_OrderHash])]
    exact map_congr_fn _ _ _
      (fun v => by simp only [Function.comp]; rw [enrichFill_OrderHash])
  · rw [hTM, List.length_ofFn, List.length_map]
  · intro i hb
    have hlen2 : i.val < (input.Event.fills.map (enrichFill st ordermap)).length := by
      simpa using i.isLt
    have hget : (ringTM st input ordermap).get ⟨i.val, hb⟩
        = { (input.Event.fills.map (enrichFill st ordermap)).get ⟨i.val, hlen2⟩ with
              SellTo := sellToOwner (input.Event.fills.map (enrichFill st ordermap))
                ⟨i.val, hlen2⟩,
              BuyFrom := buyFromOwner (input.Event.fills.map (enrichFill st ordermap))
                ⟨i.val, hlen2⟩ } := by
      simp only [List.get_eq_getElem, hTM, List.getElem_ofFn]
    rw [hget]
    set l2 := input.Event.fills.map (enrichFill st ordermap) with hl2def
    have hlenEq : l2.length = input.Event.fills.length := List.length_map _ _
    refine ⟨?_, ?_, ?_⟩
    · show (l2.get ⟨i.val, hlen2⟩).OrderHash = _
      simp only [List.get_eq_getElem, hl2def, List.getElem_map]
      rw [enrichFill_OrderHash]
    · show sellToOwner l2 ⟨i.val, hlen2⟩ = _
      unfold sellToOwner
      by_cases hcase : i.val = l2.length - 1
      · rw [dif_pos hcase, l2_get_owner]
        apply congrArg
        apply Fin.ext
        show 0 = (i.val + 1) % input.Event.fills.length
        have hi := i.isLt
        rw [show i.val + 1 = input.Event.fills.length by omega, Nat.mod_self]
      · rw [dif_neg hcase, l2_get_owner]
        apply congrArg
        apply Fin.ext
        show i.val + 1 = (i.val + 1) % input.Event.fills.length
        have hi := i.isLt
        rw [Nat.mod_eq_of_lt (by omega)]
    · show buyFromOwner l2 ⟨i.val, hlen2⟩ = _
      unfold buyFromOwner
      by_cases hcase : i.val = 0
      · rw [dif_pos hcase, l2_get_owner]
        apply congrArg
        apply Fin.ext
        show l2.length - 1
            = (i.val + input.Event.fills.length - 1) % input.Event.fills.length
        have hi := i.isLt
        rw [hcase, hlenEq]
        rw [Nat.mod_eq_of_lt (by omega)]
        omega
      · rw [dif_neg hcase, l2_get_owner]
        apply congrArg
        apply Fin.ext
        show i.val - 1
            = (i.val + input.Event.fills.length - 1) % input.Event.fills.length
        have hi := i.isLt
        rw [show i.val + input.Event.fills.length - 1
            = (i.val - 1) + input.Event.fills.length by omega,
          Nat.add_mod_right, Nat.mod_eq_of_lt (by omega)]

/-- Witness for C3: the amended characterization at the concrete
two-fill/one-match settlement. -/
theorem handleRingMinedEvent_characterization_witness :
    (handleRingMinedEvent emptyMarketState inC3 (Except.ok omC3)).err = none ∧
    (ringOM emptyMarketState inC3 omC3).map OrderFilledEvent.OrderHash
      = (inC3.Event.fills.filter
          (fun v => (omC3 v.OrderHash).isSome)).map OrderFilledEvent.OrderHash ∧
    (ringTM emptyMarketState inC3 omC3).length = inC3.Event.fills.length :=
  ⟨(handleRingMinedEvent_characterization emptyMarketState inC3 omC3
      (by decide) rfl).1,
   (handleRingMinedEvent_characterization emptyMarketState inC3 omC3
      (by decide) rfl).2.1,
   (handleRingMinedEvent_characterization emptyMarketState inC3 omC3
      (by decide) rfl).2.2.1⟩

end Relay
